import Mathlib

/-!
Shallow embedding of `packages/cli/src/services/check-trigger-runner.ts`
(the trigger-and-correlate runner, class `CheckRunner`).

Modelling conventions:
* JavaScript strings are `String`; a possibly-`undefined` string is `Option String`.
* The `timeouts : Map<CheckRunId, NodeJS.Timeout>` field is a list of
  key/timer-id pairs with JS `Map` semantics (`set` overwrites an existing
  key in place, `delete` removes the key, keys may be the JS value
  `undefined`, modelled as `none`).
* A scheduled `setTimeout` callback is a `PendingTimer` entry; a timer that
  was cleared with `clearTimeout`, or that already fired, is no longer
  pending and can never fire.
* The asynchronous execution of `run()` is modelled as a deterministic
  function of an environment script: the outcome of the
  `testSessions.trigger` call plus the ordered list of broker messages and
  timer firings delivered after the trigger response.  Message handling is
  modelled as atomic per delivery (the runner is single threaded; all state
  mutation in the handler happens before its internal awaits).
* A handler invocation that raises (for example `JSON.parse` on a payload
  that is not valid JSON) is recorded with `threw := true`; an unhandled
  rejection terminates the process, so processing stops there.
* We assume no backend run id is the literal string "undefined", so a JS
  lookup `obj[undefined]` is modelled as returning `undefined` (`none`).
-/

namespace CheckRunner

/-- A check descriptor as used by the runner; only the `id` field is ever
read by `check-trigger-runner.ts` (`checks.find(check => check.id === checkId)`). -/
structure Check where
  id : String
deriving DecidableEq, Repr

/-- JS `String.prototype.split` with a one-character separator, on the
character list of the string. -/
def splitAux (sep : Char) : List Char → List Char → List String
  | [], acc => [String.mk acc.reverse]
  | c :: cs, acc =>
    if c = sep then String.mk acc.reverse :: splitAux sep cs []
    else splitAux sep cs (c :: acc)

/-- `topic.split('/')` from the source, for an arbitrary separator. -/
def jsSplit (s : String) (sep : Char) : List String :=
  splitAux sep s.toList []

/-- A JS object used as a string-to-string record. -/
abbrev StrMap := List (String × String)

/-- JS property read `obj[k]` for a string key (first binding wins; a JS
object cannot hold duplicate keys). -/
def jsLookup (obj : StrMap) (k : String) : Option String :=
  match obj with
  | [] => none
  | (k', v) :: rest => if k' = k then some v else jsLookup rest k

/-- JS property read `obj[k]` where the key may be `undefined`. -/
def jsObjGet (obj : StrMap) (k : Option String) : Option String :=
  match k with
  | some s => jsLookup obj s
  | none => none

/-- JS property write `obj[k] = v`: overwrites an existing binding in place,
otherwise appends. -/
def jsObjSet (obj : StrMap) (k v : String) : StrMap :=
  if obj.any (fun p => p.1 == k) then
    obj.map (fun p => if p.1 == k then (k, v) else p)
  else obj ++ [(k, v)]

/-- `objectFlip` from the source (lines 178-184): builds the inverse record
by iterating the keys and writing `ret[obj[key]] = key`. -/
def objectFlip (obj : StrMap) : StrMap :=
  obj.foldl (fun ret p => jsObjSet ret p.2 p.1) []

/-- Identifier of a scheduled `setTimeout` callback. -/
abbrev TimerId := Nat

/-- The `timeouts` field: a JS `Map` from check-run id (possibly the JS
value `undefined`, i.e. `none`) to the timer handle stored for that key. -/
abbrev TimeoutMap := List (Option String × TimerId)

/-- `Map.prototype.has`. -/
def mapHas (m : TimeoutMap) (k : Option String) : Bool :=
  m.any (fun p => p.1 == k)

/-- `Map.prototype.get`. -/
def mapGet (m : TimeoutMap) (k : Option String) : Option TimerId :=
  (m.find? (fun p => p.1 == k)).map (fun p => p.2)

/-- `Map.prototype.set`: overwrites an existing key in place, otherwise
appends. -/
def mapSet (m : TimeoutMap) (k : Option String) (v : TimerId) : TimeoutMap :=
  if m.any (fun p => p.1 == k) then
    m.map (fun p => if p.1 == k then (k, v) else p)
  else m ++ [(k, v)]

/-- `Map.prototype.delete`. -/
def mapDelete (m : TimeoutMap) (k : Option String) : TimeoutMap :=
  m.filter (fun p => !(p.1 == k))

/-- A scheduled, not yet fired and not yet cleared, `setTimeout` callback
armed by `scheduleAllChecks` (source lines 102-109).  It captures the
check-run id and the check object of its loop iteration, and the delay
`this.timeout * 1000` in milliseconds. -/
structure PendingTimer where
  tid : TimerId
  delayMs : Nat
  runId : Option String
  check : Check
deriving DecidableEq, Repr

/-- The `assets` object of a `run-end` payload result. -/
structure Assets where
  region : String
  logPath : Option String
  checkRunDataPath : Option String
deriving DecidableEq, Repr

/-- The `result` object of a `run-end` payload; `logs` and `checkRunData`
are the fields assigned by the handler after fetching. -/
structure CheckResult where
  hasFailures : Bool
  assets : Assets
  logs : Option String := none
  checkRunData : Option String := none
deriving DecidableEq, Repr

/-- A successfully parsed JSON message payload.  `result` is `none` when the
payload has no `result` field (reading `result.assets` then raises). -/
structure Msg where
  result : Option CheckResult := none
deriving DecidableEq, Repr

/-- The raw broker payload: `invalid` is a byte string on which `JSON.parse`
raises, `parsed m` one that parses to `m`. -/
inductive RawMsg where
  | invalid
  | parsed (m : Msg)
deriving DecidableEq, Repr

/-- The second argument of a `CHECK_FAILED` emission: either the literal
reason string (timeout path) or the raw parsed message (error path). -/
inductive FailReason where
  | text (s : String)
  | payload (m : Msg)
deriving DecidableEq, Repr

/-- The event stream of the runner (the `Events` enum of the source; the
payloads are the `emit` arguments).  The check argument is `Option Check`
because `checks.find` can return `undefined`. -/
inductive Event where
  | checkInProgress (check : Option Check)
  | checkFailed (check : Option Check) (reason : FailReason)
  | checkSuccessful (check : Option Check) (result : CheckResult)
  | checkFinished (check : Option Check)
  | runStarted (checks : List Check)
  | runFinished
  | error (err : String)
deriving DecidableEq, Repr

/-- An observable side effect of the handler or the run: a call into the
asset-fetch collaborator, or an `emit` on the event stream. -/
inductive Effect where
  | fetchLogs (region path : String)
  | fetchCheckRunData (region path : String)
  | emit (e : Event)
deriving DecidableEq, Repr

/-- The asset-fetch collaborator (`assets.getLogs` / `assets.getCheckRunData`),
modelled as total functions returning the fetched data. -/
structure Ctx where
  getLogs : String → String → String
  getCheckRunData : String → String → String

/-- The mutable per-run state of the `CheckRunner` instance, after the
trigger response is known: the `timeouts` map, the pending timer callbacks,
the next fresh timer handle, the constructor fields read by the handler,
and the resolved value of `this.checks` (the check list and the flipped
run-id map). -/
structure RState where
  timeouts : TimeoutMap
  pending : List PendingTimer
  nextTimer : TimerId
  verbose : Bool
  timeoutSec : Nat
  checks : List Check
  runIdMap : StrMap
deriving DecidableEq, Repr

/-- JS truthiness of a possibly-undefined string (`undefined` and the empty
string are falsy). -/
def truthy : Option String → Bool
  | none => false
  | some s => !s.isEmpty

/-- `disableTimeout` (source lines 172-176): `clearTimeout` the handle the
map currently stores for this key (a no-op when the key is absent), then
delete the key. -/
def disableTimeout (st : RState) (checkRunId : Option String) : RState :=
  let timeout := mapGet st.timeouts checkRunId
  let pending' :=
    match timeout with
    | some tid => st.pending.filter (fun t => !(t.tid == tid))
    | none => st.pending
  { st with pending := pending', timeouts := mapDelete st.timeouts checkRunId }

/-- Result of one handler invocation: the state after it, the ordered side
effects it performed, and whether it raised. -/
structure HandlerOutcome where
  state : RState
  effects : List Effect
  threw : Bool
deriving DecidableEq, Repr

/-- The guard `logPath && (this.verbose || result.hasFailures)` of source
line 142 (JS truthiness on the path). -/
def logsCondOf (st : RState) (result : CheckResult) : Bool :=
  truthy result.assets.logPath && (st.verbose || result.hasFailures)

/-- The guard `checkRunDataPath && (this.verbose || result.hasFailures)` of
source line 145. -/
def dataCondOf (st : RState) (result : CheckResult) : Bool :=
  truthy result.assets.checkRunDataPath && (st.verbose || result.hasFailures)

/-- The asset-fetch calls performed by the `run-end` branch, in order:
logs first (source line 143), then check-run data (source line 146). -/
def fetchEffects (st : RState) (result : CheckResult) : List Effect :=
  (if logsCondOf st result then
    [Effect.fetchLogs result.assets.region (result.assets.logPath.getD "")] else []) ++
  (if dataCondOf st result then
    [Effect.fetchCheckRunData result.assets.region (result.assets.checkRunDataPath.getD "")] else [])

/-- The result object after the `run-end` branch assigned `result.logs` and
`result.checkRunData` (source lines 143 and 146). -/
def attachAssets (ctx : Ctx) (st : RState) (result : CheckResult) : CheckResult :=
  let result1 :=
    if logsCondOf st result then
      { result with logs := some (ctx.getLogs result.assets.region (result.assets.logPath.getD "")) }
    else result
  if dataCondOf st result then
    { result1 with
      checkRunData := some (ctx.getCheckRunData result.assets.region (result.assets.checkRunDataPath.getD "")) }
  else result1

/-- The `run-end` branch of the message handler (source lines 138-149):
disarm the timer, then fetch and attach assets when the path is truthy and
either verbosity is on or the result has failures, then emit
`CHECK_SUCCESSFUL` and `CHECK_FINISHED`.  A payload without a `result`
field raises after the timer was already disarmed. -/
def runEndBranch (ctx : Ctx) (st : RState) (checkRunId : Option String)
    (check : Option Check) (message : Msg) : HandlerOutcome :=
  let st' := disableTimeout st checkRunId
  match message.result with
  | none => ⟨st', [], true⟩
  | some result =>
    ⟨st', fetchEffects st result ++
      [.emit (.checkSuccessful check (attachAssets ctx st result)),
       .emit (.checkFinished check)], false⟩

/-- `checkRunIds[checkRunId]` in the handler: the flipped map lookup; the
key may be `undefined`. -/
def lookupRunId (runIdMap : StrMap) (checkRunId : Option String) : Option String :=
  jsObjGet runIdMap checkRunId

/-- `checks.find(check => check.id === checkId)`. -/
def findCheck (checks : List Check) (checkId : Option String) : Option Check :=
  checks.find? (fun chk => some chk.id == checkId)

/-- The anonymous message handler attached by `configureResultListener`
(source lines 121-155).  `JSON.parse` raises on an invalid payload before
anything else happens; then the run id and subtopic are read from the topic
path; a run id absent from the `timeouts` map returns early; otherwise the
`run-start`, `run-end` and `error` subtopics are dispatched, and any other
subtopic does nothing. -/
def handleMessage (ctx : Ctx) (st : RState) (topic : String) (raw : RawMsg) :
    HandlerOutcome :=
  match raw with
  | .invalid => ⟨st, [], true⟩
  | .parsed message =>
    let topicComponents := jsSplit topic '/'
    let checkRunId := topicComponents[4]?
    let subtopic := topicComponents[5]?
    let checkId := lookupRunId st.runIdMap checkRunId
    let check := findCheck st.checks checkId
    if mapHas st.timeouts checkRunId then
      if subtopic == some "run-start" then
        ⟨st, [.emit (.checkInProgress check)], false⟩
      else if subtopic == some "run-end" then
        runEndBranch ctx st checkRunId check message
      else if subtopic == some "error" then
        let st' := disableTimeout st checkRunId
        ⟨st', [.emit (.checkFailed check (.payload message)),
               .emit (.checkFinished check)], false⟩
      else ⟨st, [], false⟩
    else ⟨st, [], false⟩

/-- The firing of the armed `setTimeout` callback with handle `tid` (source
lines 104-108): only a still-pending timer can fire; the callback deletes
its own key from the `timeouts` map and then emits `CHECK_FAILED` with
reason "Reached timeout" and `CHECK_FINISHED` for its captured check. -/
def fireTimer (st : RState) (tid : TimerId) : RState × List Event :=
  match st.pending.find? (fun t => t.tid == tid) with
  | none => (st, [])
  | some t =>
    ({ st with
        pending := st.pending.filter (fun u => !(u.tid == tid)),
        timeouts := mapDelete st.timeouts t.runId },
     [.checkFailed (some t.check) (.text "Reached timeout"),
      .checkFinished (some t.check)])

/-- One external stimulus delivered to the runner after the trigger
response: an inbound broker message, or the firing of a timer handle. -/
inductive Delivery where
  | message (topic : String) (raw : RawMsg)
  | timer (tid : TimerId)
deriving DecidableEq, Repr

/-- Process one delivery against the runner state. -/
def deliveryStep (ctx : Ctx) (st : RState) (d : Delivery) : HandlerOutcome :=
  match d with
  | .message topic raw => handleMessage ctx st topic raw
  | .timer tid =>
    let (st', evs) := fireTimer st tid
    ⟨st', evs.map .emit, false⟩

/-- Process a list of deliveries, recording the effects of each.  A handler
that raises produces an unhandled rejection, which terminates the process,
so processing stops there. -/
def processAll (ctx : Ctx) (st : RState) : List Delivery → List (Delivery × List Effect)
  | [] => []
  | d :: ds =>
    let out := deliveryStep ctx st d
    if out.threw then [(d, out.effects)]
    else (d, out.effects) :: processAll ctx out.state ds

/-- All effects of a processed delivery list, in order. -/
def allEffects (outs : List (Delivery × List Effect)) : List Effect :=
  (outs.map (fun o => o.2)).flatten

/-- How many `CHECK_FINISHED` events for exactly the check `c` a list of
effects contains. -/
def finishedForCount (effs : List Effect) (c : Check) : Nat :=
  effs.countP (fun e =>
    match e with
    | .emit (.checkFinished (some c')) => c' == c
    | _ => false)

/-- How many `CHECK_FINISHED` events (for any check) a list of effects
contains; this is what the `allChecksFinished` listener counts. -/
def effFinCount (effs : List Effect) : Nat :=
  effs.countP (fun e =>
    match e with
    | .emit (.checkFinished _) => true
    | _ => false)

/-- The parsed body of the `POST /test-sessions/trigger` response:
`response.data = { checks, checkRunIds }`, where `checkRunIds` maps check
id to backend run id. -/
structure TriggerResponse where
  checks : List Check
  checkRunIds : StrMap
deriving DecidableEq, Repr

/-- Outcome of the `testSessions.trigger` transport call. -/
inductive TriggerOutcome where
  | ok (resp : TriggerResponse)
  | err (e : String)
deriving DecidableEq, Repr

/-- The externally visible steps of one `run()` invocation, in order:
connecting the socket client, attaching the message handler, the resolution
of the awaited `subscribe` call, issuing the trigger request, side effects
(fetch calls and emitted events), and the cleanup disconnect. -/
inductive Action where
  | connect
  | attachHandler
  | subscribeAck (topic : String)
  | triggerRequest
  | effect (e : Effect)
  | disconnect
deriving DecidableEq, Repr

/-- The subscription topic pattern of `configureResultListener`
(source line 156). -/
def subscriptionTopic (accountId suiteId : String) : String :=
  "account/" ++ accountId ++ "/ad-hoc-check-results/" ++ suiteId ++ "/+/+"

/-- One iteration of the arming loop of `scheduleAllChecks` (source lines
102-109): look up the run id of the check, schedule a fresh timer of
`this.timeout * 1000` milliseconds capturing this run id and check, and
store its handle in the `timeouts` map under the run id. -/
def armCheck (checkRunIds : StrMap) (st : RState) (check : Check) : RState :=
  let checkRunId := jsObjGet checkRunIds (some check.id)
  { st with
    pending := st.pending ++ [⟨st.nextTimer, st.timeoutSec * 1000, checkRunId, check⟩],
    timeouts := mapSet st.timeouts checkRunId st.nextTimer,
    nextTimer := st.nextTimer + 1 }

/-- The whole arming loop of `scheduleAllChecks`. -/
def armTimers (st : RState) (checks : List Check) (checkRunIds : StrMap) : RState :=
  checks.foldl (armCheck checkRunIds) st

/-- The runner state right after a successful trigger response was
processed by `scheduleAllChecks`: timers armed for every returned check,
and the resolved value of `this.checks` holding the returned check list and
the `objectFlip`-ped run-id map. -/
def postTriggerState (verbose : Bool) (timeoutSec : Nat) (resp : TriggerResponse) :
    RState :=
  armTimers
    { timeouts := [], pending := [], nextTimer := 0, verbose := verbose,
      timeoutSec := timeoutSec, checks := resp.checks,
      runIdMap := objectFlip resp.checkRunIds }
    resp.checks resp.checkRunIds

/-- The event-processing phase of `run()` after `RUN_STARTED`: deliveries
are processed in order while the `allChecksFinished` counter is below the
number of returned checks; the delivery that makes the counter reach that
number resolves the completion signal, upon which `run()` emits
`RUN_FINISHED` and performs the cleanup disconnect.  A handler that raises
produces an unhandled rejection terminating the process.  If the
deliveries are exhausted first, `run()` stays suspended on the completion
signal.  (Each delivery emits at most one `CHECK_FINISHED`, so comparing
with `≤` is the same as the `===` comparison of the source.) -/
def runLoop (ctx : Ctx) : RState → Nat → List Delivery → List Action
  | _, _, [] => []
  | st, need, d :: ds =>
    if (deliveryStep ctx st d).threw then (deliveryStep ctx st d).effects.map Action.effect
    else if need ≤ effFinCount (deliveryStep ctx st d).effects then
      (deliveryStep ctx st d).effects.map Action.effect ++
        [.effect (.emit .runFinished), .disconnect]
    else
      (deliveryStep ctx st d).effects.map Action.effect ++
        runLoop ctx (deliveryStep ctx st d).state
          (need - effFinCount (deliveryStep ctx st d).effects) ds

/-- The trace of one `run()` invocation (source lines 76-91), as a function
of the trigger outcome and of the deliveries arriving after the trigger
response: connect, attach the handler and await the subscription, then
issue the trigger.  On a rejected trigger, emit `ERROR` and disconnect.  On
a response, arm the timers, emit `RUN_STARTED` with the returned checks;
with zero checks `allChecksFinished` resolves immediately and
`RUN_FINISHED` is emitted without processing any delivery; otherwise the
deliveries are processed by `runLoop`. -/
def runModel (ctx : Ctx) (accountId suiteId : String) (verbose : Bool)
    (timeoutSec : Nat) (outcome : TriggerOutcome) (ds : List Delivery) :
    List Action :=
  [.connect, .attachHandler, .subscribeAck (subscriptionTopic accountId suiteId),
   .triggerRequest] ++
  match outcome with
  | .err e => [.effect (.emit (.error e)), .disconnect]
  | .ok resp =>
    .effect (.emit (.runStarted resp.checks)) ::
    (if resp.checks.length = 0 then [.effect (.emit .runFinished), .disconnect]
     else runLoop ctx (postTriggerState verbose timeoutSec resp) resp.checks.length ds)

/-- Modelled from the spec: `services/socket-client.ts` is not under `src/`
(only its caller is), so the behaviour of `socketClient.end()` is taken
from the spec, which states that the cleanup disconnect is "best-effort
(disconnect failures are swallowed)" (spec sections 5 and 7).  `fails`
says whether the underlying broker disconnect fails; the returned value is
the error that `end()` reports to its caller, which per the spec is always
`none`. -/
def socketEnd (fails : Bool) : Option String :=
  none

/-- A full `run()` including the cleanup step: the trace, paired with the
error that `run()` itself propagates to its caller.  Per the source
(lines 88-90) the `finally` block awaits `socketClient.end()`, so `run()`
propagates exactly the error that `end()` reports. -/
def runFull (ctx : Ctx) (accountId suiteId : String) (verbose : Bool)
    (timeoutSec : Nat) (outcome : TriggerOutcome) (ds : List Delivery)
    (endFails : Bool) : List Action × Option String :=
  (runModel ctx accountId suiteId verbose timeoutSec outcome ds, socketEnd endFails)

/-- The events emitted on the runner event stream during a trace. -/
def emittedEvents (acts : List Action) : List Event :=
  acts.filterMap (fun a =>
    match a with
    | .effect (.emit e) => some e
    | _ => none)

/-- How many `CHECK_FINISHED` events a trace contains. -/
def actFinCount (acts : List Action) : Nat :=
  acts.countP (fun a =>
    match a with
    | .effect (.emit (.checkFinished _)) => true
    | _ => false)

/-- Whether a handler invocation called `assets.getLogs`. -/
def invokesLogFetch (out : HandlerOutcome) : Bool :=
  out.effects.any (fun e =>
    match e with
    | .fetchLogs _ _ => true
    | _ => false)

/-- Whether a handler invocation called `assets.getCheckRunData`. -/
def invokesDataFetch (out : HandlerOutcome) : Bool :=
  out.effects.any (fun e =>
    match e with
    | .fetchCheckRunData _ _ => true
    | _ => false)

/-- Well-formedness of a trigger response, as assumed by the spec: the
returned check descriptors have pairwise distinct ids, the
`checkRunIds` record has pairwise distinct keys (a parsed JSON object) and
pairwise distinct run ids (the injectivity invariant of spec section 3),
and every returned check has an entry in the record (spec section 6 types
the record as `map<checkId, runId>` over the selected checks). -/
def WF (resp : TriggerResponse) : Prop :=
  (resp.checks.map Check.id).Nodup ∧
  (resp.checkRunIds.map Prod.fst).Nodup ∧
  (resp.checkRunIds.map Prod.snd).Nodup ∧
  ∀ c ∈ resp.checks, (jsLookup resp.checkRunIds c.id).isSome = true

instance (resp : TriggerResponse) : Decidable (WF resp) := by
  unfold WF; infer_instance

/-- The correlation invariant maintained while deliveries are processed:
pending timer handles are distinct, `timeouts` keys are distinct, every
`timeouts` entry points at a pending timer armed for that key and
conversely every pending timer has its handle stored under its run id,
a message for the run id of a pending timer resolves (through the flipped
map and `checks.find`) to exactly the check that timer captured, and
distinct pending timers capture distinct checks. -/
structure RunnerInv (st : RState) : Prop where
  tids_nodup : (st.pending.map (fun t => t.tid)).Nodup
  keys_nodup : (st.timeouts.map (fun e => e.1)).Nodup
  link1 : ∀ e ∈ st.timeouts, ∃ t ∈ st.pending, t.tid = e.2 ∧ t.runId = e.1
  link2 : ∀ t ∈ st.pending, (t.runId, t.tid) ∈ st.timeouts
  resolve : ∀ t ∈ st.pending,
    findCheck st.checks (lookupRunId st.runIdMap t.runId) = some t.check
  checks_nodup : (st.pending.map (fun t => t.check)).Nodup

/-- A concrete asset-fetch collaborator used to evaluate the model on
concrete inputs. -/
def ctxW : Ctx := ⟨fun _ _ => "LOGS", fun _ _ => "DATA"⟩

/-- A concrete armed runner state with two checks A and B whose run ids are
r1 and r2, used to evaluate the model on concrete inputs. -/
def rstW : RState :=
  { timeouts := [(some "r1", 0), (some "r2", 1)],
    pending := [⟨0, 240000, some "r1", ⟨"A"⟩⟩, ⟨1, 240000, some "r2", ⟨"B"⟩⟩],
    nextTimer := 2, verbose := false, timeoutSec := 240,
    checks := [⟨"A"⟩, ⟨"B"⟩],
    runIdMap := objectFlip [("A", "r1"), ("B", "r2")] }

/-- A concrete one-check trigger response used to evaluate the model on
concrete inputs. -/
def respW1 : TriggerResponse := ⟨[⟨"A"⟩], [("A", "r1")]⟩

/-- A concrete two-check trigger response used to evaluate the model on
concrete inputs. -/
def respW2 : TriggerResponse := ⟨[⟨"A"⟩, ⟨"B"⟩], [("A", "r1"), ("B", "r2")]⟩

/-! Helper lemmas. -/

theorem runLoop_mem (ctx : Ctx) :
    ∀ (ds : List Delivery) (st : RState) (need : Nat) (a : Action),
      a ∈ runLoop ctx st need ds → (∃ e, a = .effect e) ∨ a = .disconnect := by
  intro ds
  induction ds with
  | nil => intro st need a h; simp [runLoop] at h
  | cons d ds ih =>
    intro st need a h
    simp only [runLoop] at h
    split at h
    · rcases List.mem_map.1 h with ⟨e, _, rfl⟩
      exact Or.inl ⟨e, rfl⟩
    · split at h
      · rcases List.mem_append.1 h with h1 | h1
        · rcases List.mem_map.1 h1 with ⟨e, _, rfl⟩
          exact Or.inl ⟨e, rfl⟩
        · rcases List.mem_cons.1 h1 with rfl | h2
          · exact Or.inl ⟨_, rfl⟩
          · rcases List.mem_singleton.1 h2 with rfl
            exact Or.inr rfl
      · rcases List.mem_append.1 h with h1 | h1
        · rcases List.mem_map.1 h1 with ⟨e, _, rfl⟩
          exact Or.inl ⟨e, rfl⟩
        · exact ih _ _ _ h1

/-- C1: in every execution of `run()`, the socket connection, the handler
attachment and the awaited subscribe acknowledgment all happen strictly
before the trigger request is issued, and after the single trigger request
no further subscribe or handler attachment occurs: the trigger is never
sent while no subscription exists. -/
theorem run_subscribe_before_trigger (ctx : Ctx) (accountId suiteId : String)
    (verbose : Bool) (timeoutSec : Nat) (outcome : TriggerOutcome)
    (ds : List Delivery) :
    ∃ tail,
      runModel ctx accountId suiteId verbose timeoutSec outcome ds =
        [.connect, .attachHandler,
         .subscribeAck (subscriptionTopic accountId suiteId), .triggerRequest] ++ tail ∧
      (∀ t, Action.subscribeAck t ∉ tail) ∧
      Action.triggerRequest ∉ tail ∧
      Action.attachHandler ∉ tail := by
  cases outcome with
  | err e =>
    refine ⟨[.effect (.emit (.error e)), .disconnect], rfl, ?_, ?_, ?_⟩ <;> simp
  | ok resp =>
    have hmem : ∀ a ∈ (Action.effect (.emit (.runStarted resp.checks)) ::
        (if resp.checks.length = 0 then
          [Action.effect (.emit .runFinished), Action.disconnect]
        else runLoop ctx (postTriggerState verbose timeoutSec resp) resp.checks.length ds)),
        (∃ e, a = Action.effect e) ∨ a = Action.disconnect := by
      intro a ha
      rcases List.mem_cons.1 ha with rfl | ha
      · exact Or.inl ⟨_, rfl⟩
      · split at ha
        · rcases List.mem_cons.1 ha with rfl | ha
          · exact Or.inl ⟨_, rfl⟩
          · rcases List.mem_singleton.1 ha with rfl
            exact Or.inr rfl
        · exact runLoop_mem ctx _ _ _ _ ha
    refine ⟨_, rfl, ?_, ?_, ?_⟩
    · intro t ht
      rcases hmem _ ht with ⟨e, he⟩ | he <;> simp at he
    · intro ht
      rcases hmem _ ht with ⟨e, he⟩ | he <;> simp at he
    · intro ht
      rcases hmem _ ht with ⟨e, he⟩ | he <;> simp at he

/-- C1 witness: the ordering holds on a concrete run. -/
theorem run_subscribe_before_trigger_witness :
    ∃ tail,
      runModel ctxW "acc" "s" false 240 (.ok respW1) [Delivery.timer 0] =
        [.connect, .attachHandler,
         .subscribeAck (subscriptionTopic "acc" "s"), .triggerRequest] ++ tail ∧
      (∀ t, Action.subscribeAck t ∉ tail) ∧
      Action.triggerRequest ∉ tail ∧
      Action.attachHandler ∉ tail :=
  run_subscribe_before_trigger ctxW "acc" "s" false 240 (.ok respW1) [Delivery.timer 0]

/-- C5: if the trigger transport call rejects, `run()` emits exactly one
event, the `ERROR` event carrying the rejection, and still performs the
cleanup disconnect; no `RUN_STARTED`, no check event and no `RUN_FINISHED`
is emitted and no delivery is ever processed. -/
theorem trigger_failure_emits_only_error (ctx : Ctx) (accountId suiteId : String)
    (verbose : Bool) (timeoutSec : Nat) (e : String) (ds : List Delivery) :
    runModel ctx accountId suiteId verbose timeoutSec (.err e) ds =
      [.connect, .attachHandler,
       .subscribeAck (subscriptionTopic accountId suiteId), .triggerRequest,
       .effect (.emit (.error e)), .disconnect] ∧
    emittedEvents (runModel ctx accountId suiteId verbose timeoutSec (.err e) ds) =
      [.error e] := by
  exact ⟨rfl, rfl⟩

/-- C8: the cleanup disconnect is best-effort: whether or not the broker
disconnect fails, `run()` propagates no disconnect error and its trace is
unchanged.  (`socketClient.end()` is modelled from the spec, which states
disconnect failures are swallowed; `run()` faithfully re-raises whatever
`end()` reports, which is nothing.) -/
theorem disconnect_failure_swallowed (ctx : Ctx) (accountId suiteId : String)
    (verbose : Bool) (timeoutSec : Nat) (outcome : TriggerOutcome)
    (ds : List Delivery) (endFails : Bool) :
    (runFull ctx accountId suiteId verbose timeoutSec outcome ds endFails).2 = none ∧
    (runFull ctx accountId suiteId verbose timeoutSec outcome ds endFails).1 =
      (runFull ctx accountId suiteId verbose timeoutSec outcome ds false).1 := by
  exact ⟨rfl, rfl⟩

/-- C9 counterexample: the claim says handling of a message with a
malformed topic never throws, but `JSON.parse(rawMessage)` runs before any
topic inspection, so a message with a malformed topic (here a topic with no
run-id segment) whose payload is not valid JSON makes the handler raise. -/
theorem malformed_topic_can_throw :
    (jsSplit "not-a-topic" '/')[4]? = none ∧
    (handleMessage ctxW rstW "not-a-topic" RawMsg.invalid).threw = true := by
  decide

/-- C9 amended: for every inbound message whose payload parses as JSON and
whose topic is malformed (missing run-id or kind segment) or whose run id
is not present in the `timeouts` table, handling is a defensive no-op: the
handler returns the state unchanged, performs no effect and does not
throw. -/
theorem malformed_or_unknown_is_noop (ctx : Ctx) (st : RState) (topic : String)
    (m : Msg)
    (h : (jsSplit topic '/')[4]? = none ∨ (jsSplit topic '/')[5]? = none ∨
      mapHas st.timeouts ((jsSplit topic '/')[4]?) = false) :
    handleMessage ctx st topic (.parsed m) = ⟨st, [], false⟩ := by
  rcases h with h4 | h5 | hh
  · have h5 : (jsSplit topic '/')[5]? = none := by
      rw [List.getElem?_eq_none_iff] at h4 ⊢
      omega
    simp only [handleMessage, h4, h5]
    split <;> simp
  · simp only [handleMessage, h5]
    split <;> simp
  · simp only [handleMessage, hh]
    simp

/-- C9 witness: a concrete malformed-topic message with a JSON payload is a
no-op on the concrete armed state. -/
theorem malformed_or_unknown_is_noop_witness :
    (jsSplit "not-a-topic" '/')[4]? = none ∧
    handleMessage ctxW rstW "not-a-topic" (.parsed {}) = ⟨rstW, [], false⟩ :=
  ⟨by decide, malformed_or_unknown_is_noop ctxW rstW "not-a-topic" {} (Or.inl (by decide))⟩

/-- C10: no per-check phase is tracked: on a `run-start` message whose run
id is still in the `timeouts` table, the handler emits `CHECK_INPROGRESS`
and leaves the whole state (including the armed timer) unchanged, so a
repeated `run-start` for the same run id produces the identical outcome
again, emitting a further `CHECK_INPROGRESS` for the same check. -/
theorem run_start_not_once_only (ctx : Ctx) (st : RState) (topic : String)
    (m : Msg)
    (harmed : mapHas st.timeouts ((jsSplit topic '/')[4]?) = true)
    (hsub : (jsSplit topic '/')[5]? = some "run-start") :
    handleMessage ctx st topic (.parsed m) =
      ⟨st, [.emit (.checkInProgress (findCheck st.checks
        (lookupRunId st.runIdMap ((jsSplit topic '/')[4]?))))], false⟩ ∧
    handleMessage ctx (handleMessage ctx st topic (.parsed m)).state topic (.parsed m) =
      handleMessage ctx st topic (.parsed m) := by
  have h1 : handleMessage ctx st topic (.parsed m) =
      ⟨st, [.emit (.checkInProgress (findCheck st.checks
        (lookupRunId st.runIdMap ((jsSplit topic '/')[4]?))))], false⟩ := by
    simp only [handleMessage, harmed, hsub]
    simp
  exact ⟨h1, by rw [h1]; exact h1⟩

/-- C10 witness: on the concrete armed state, a `run-start` for run id r1
emits `CHECK_INPROGRESS` for check A and leaves the state unchanged, and a
second identical message does the same again. -/
theorem run_start_not_once_only_witness :
    handleMessage ctxW rstW "account/acc/ad-hoc-check-results/s/r1/run-start" (.parsed {}) =
      ⟨rstW, [.emit (.checkInProgress (some ⟨"A"⟩))], false⟩ ∧
    handleMessage ctxW
      (handleMessage ctxW rstW "account/acc/ad-hoc-check-results/s/r1/run-start" (.parsed {})).state
      "account/acc/ad-hoc-check-results/s/r1/run-start" (.parsed {}) =
      handleMessage ctxW rstW "account/acc/ad-hoc-check-results/s/r1/run-start" (.parsed {}) := by
  obtain ⟨h1, h2⟩ := run_start_not_once_only ctxW rstW
    "account/acc/ad-hoc-check-results/s/r1/run-start" {} (by decide) (by decide)
  refine ⟨?_, h2⟩
  rw [h1]
  decide

theorem armCheck_pending_mono (M : StrMap) (st : RState) (c : Check)
    (t : PendingTimer) (h : t ∈ st.pending) : t ∈ (armCheck M st c).pending := by
  simp only [armCheck, List.mem_append]
  exact Or.inl h

theorem armTimers_pending_mono (M : StrMap) :
    ∀ (cs : List Check) (st : RState) (t : PendingTimer),
      t ∈ st.pending → t ∈ (armTimers st cs M).pending := by
  intro cs
  induction cs with
  | nil => intro st t h; exact h
  | cons c cs ih =>
    intro st t h
    exact ih (armCheck M st c) t (armCheck_pending_mono M st c t h)

theorem armTimers_timeoutSec (M : StrMap) :
    ∀ (cs : List Check) (st : RState), (armTimers st cs M).timeoutSec = st.timeoutSec := by
  intro cs
  induction cs with
  | nil => intro st; rfl
  | cons c cs ih => intro st; exact ih (armCheck M st c)

theorem armTimers_arms (M : StrMap) :
    ∀ (cs : List Check) (st : RState) (c : Check), c ∈ cs →
      ∃ u ∈ (armTimers st cs M).pending,
        u.check = c ∧ u.delayMs = st.timeoutSec * 1000 ∧
        u.runId = jsObjGet M (some c.id) := by
  intro cs
  induction cs with
  | nil => intro st c h; simp at h
  | cons c0 cs ih =>
    intro st c h
    rcases List.mem_cons.1 h with rfl | h
    · refine ⟨⟨st.nextTimer, st.timeoutSec * 1000, jsObjGet M (some c.id), c⟩, ?_, rfl, rfl, rfl⟩
      refine armTimers_pending_mono M cs (armCheck M st c) _ ?_
      simp [armCheck]
    · obtain ⟨u, hu, h1, h2, h3⟩ := ih (armCheck M st c0) c h
      exact ⟨u, hu, h1, h2, h3⟩

/-- C6: for every check in the trigger response a timer of
`timeout * 1000` milliseconds capturing its run id is armed at trigger
time; and when an armed timer fires before any terminal message for its
run id, the callback removes its own pending entry and its run-id key from
the table and emits exactly `CHECK_FAILED` with reason "Reached timeout"
followed by `CHECK_FINISHED` for its captured check, the handler does not
throw (the run continues), and every pending timer and table entry of a
different check survives untouched. -/
theorem timer_armed_and_fires_for_its_check_only (v : Bool) (tSec : Nat)
    (resp : TriggerResponse) (ctx : Ctx) (st : RState) (tid : TimerId)
    (t : PendingTimer)
    (hfind : st.pending.find? (fun u => u.tid == tid) = some t) :
    (∀ c ∈ resp.checks, ∃ u ∈ (postTriggerState v tSec resp).pending,
      u.check = c ∧ u.delayMs = tSec * 1000 ∧
      u.runId = jsObjGet resp.checkRunIds (some c.id)) ∧
    deliveryStep ctx st (.timer tid) =
      ⟨{ st with
          pending := st.pending.filter (fun u => !(u.tid == tid)),
          timeouts := mapDelete st.timeouts t.runId },
        [.emit (.checkFailed (some t.check) (.text "Reached timeout")),
         .emit (.checkFinished (some t.check))], false⟩ ∧
    (∀ u ∈ st.pending, u.tid ≠ tid →
      u ∈ (deliveryStep ctx st (.timer tid)).state.pending) ∧
    (∀ e ∈ st.timeouts, e.1 ≠ t.runId →
      e ∈ (deliveryStep ctx st (.timer tid)).state.timeouts) := by
  have hstep : deliveryStep ctx st (.timer tid) =
      ⟨{ st with
          pending := st.pending.filter (fun u => !(u.tid == tid)),
          timeouts := mapDelete st.timeouts t.runId },
        [.emit (.checkFailed (some t.check) (.text "Reached timeout")),
         .emit (.checkFinished (some t.check))], false⟩ := by
    simp [deliveryStep, fireTimer, hfind]
  refine ⟨?_, hstep, ?_, ?_⟩
  · intro c hc
    have := armTimers_arms resp.checkRunIds resp.checks
      { timeouts := [], pending := [], nextTimer := 0, verbose := v,
        timeoutSec := tSec, checks := resp.checks,
        runIdMap := objectFlip resp.checkRunIds } c hc
    exact this
  · intro u hu hne
    rw [hstep]
    simp only [List.mem_filter]
    exact ⟨hu, by simp [hne]⟩
  · intro e he hne
    rw [hstep]
    simp only [mapDelete, List.mem_filter]
    exact ⟨he, by simp [hne]⟩

/-- C6 witness: on the concrete armed two-check state, firing the timer of
check A removes exactly its entries and emits the timeout pair for A, while
check B stays armed. -/
theorem timer_fires_witness :
    (∀ c ∈ respW2.checks, ∃ u ∈ (postTriggerState false 240 respW2).pending,
      u.check = c ∧ u.delayMs = 240 * 1000 ∧
      u.runId = jsObjGet respW2.checkRunIds (some c.id)) ∧
    deliveryStep ctxW rstW (.timer 0) =
      ⟨{ rstW with
          pending := rstW.pending.filter (fun u => !(u.tid == 0)),
          timeouts := mapDelete rstW.timeouts (some "r1") },
        [.emit (.checkFailed (some ⟨"A"⟩) (.text "Reached timeout")),
         .emit (.checkFinished (some ⟨"A"⟩))], false⟩ ∧
    (⟨1, 240000, some "r2", ⟨"B"⟩⟩ : PendingTimer) ∈
      (deliveryStep ctxW rstW (.timer 0)).state.pending ∧
    ((some "r2", 1) : Option String × TimerId) ∈
      (deliveryStep ctxW rstW (.timer 0)).state.timeouts := by
  obtain ⟨h1, h2, h3, h4⟩ := timer_armed_and_fires_for_its_check_only false 240 respW2
    ctxW rstW 0 ⟨0, 240000, some "r1", ⟨"A"⟩⟩ (by decide)
  refine ⟨h1, by rw [h2], ?_, ?_⟩
  · exact h3 ⟨1, 240000, some "r2", ⟨"B"⟩⟩ (by decide) (by decide)
  · exact h4 (some "r2", 1) (by decide) (by decide)

theorem jsLookup_mem : ∀ (l : StrMap) (k v : String), jsLookup l k = some v → (k, v) ∈ l := by
  intro l
  induction l with
  | nil => intro k v h; simp [jsLookup] at h
  | cons p rest ih =>
    intro k v h
    rcases p with ⟨k0, v0⟩
    simp only [jsLookup] at h
    split at h
    · rename_i heq
      rcases Option.some_inj.1 h with rfl
      subst heq
      exact List.mem_cons_self _ _
    · exact List.mem_cons_of_mem _ (ih k v h)

theorem objectFlip_go : ∀ (l : StrMap) (acc : StrMap),
    (∀ p ∈ l, acc.any (fun q => q.1 == p.2) = false) →
    (l.map Prod.snd).Nodup →
    l.foldl (fun ret p => jsObjSet ret p.2 p.1) acc = acc ++ l.map (fun p => (p.2, p.1)) := by
  intro l
  induction l with
  | nil => intro acc _ _; simp
  | cons p rest ih =>
    intro acc hfresh hnd
    rcases p with ⟨k0, v0⟩
    have hset : jsObjSet acc v0 k0 = acc ++ [(v0, k0)] := by
      have := hfresh (k0, v0) (List.mem_cons_self _ _)
      simp only [jsObjSet, this]
      simp
    simp only [List.foldl_cons, hset]
    rw [ih (acc ++ [(v0, k0)]) ?_ (List.Nodup.of_cons hnd)]
    · simp
    · intro q hq
      rw [List.any_append]
      have h1 : acc.any (fun r => r.1 == q.2) = false :=
        hfresh q (List.mem_cons_of_mem _ hq)
      have h2 : ¬ v0 = q.2 := by
        intro heq
        have : v0 ∈ rest.map Prod.snd := by
          rw [heq]
          exact List.mem_map_of_mem Prod.snd hq
        simp only [List.map_cons] at hnd
        exact (List.nodup_cons.1 hnd).1 this
      simp [h1, h2]

/-- When the check id to run id record is injective (pairwise distinct run
ids), `objectFlip` is exactly pair reversal. -/
theorem objectFlip_eq_swap (l : StrMap) (hv : (l.map Prod.snd).Nodup) :
    objectFlip l = l.map (fun p => (p.2, p.1)) := by
  have := objectFlip_go l [] (by intro p _; rfl) hv
  simpa [objectFlip] using this

theorem jsLookup_swap : ∀ (l : StrMap), (l.map Prod.snd).Nodup →
    ∀ (k r : String), (k, r) ∈ l →
    jsLookup (l.map (fun p => (p.2, p.1))) r = some k := by
  intro l
  induction l with
  | nil => intro _ k r h; simp at h
  | cons p rest ih =>
    intro hnd k r h
    rcases p with ⟨k0, v0⟩
    simp only [List.map_cons, jsLookup]
    split
    · rename_i heq
      rcases List.mem_cons.1 h with hp | hp
      · rcases hp with ⟨rfl, rfl⟩
        rfl
      · exfalso
        have : r ∈ rest.map Prod.snd := by
          have := List.mem_map_of_mem Prod.snd hp
          simpa using this
        simp only [List.map_cons] at hnd
        rw [heq] at hnd
        exact (List.nodup_cons.1 hnd).1 this
    · rename_i hne
      rcases List.mem_cons.1 h with hp | hp
      · rcases hp with ⟨rfl, rfl⟩
        exact absurd rfl hne
      · exact ih (List.Nodup.of_cons (by simpa using hnd)) k r hp

/-- C4: assuming the backend check id to run id mapping is injective, the
inverted lookup is correct correlation: for a run id `r` that the backend
assigned to check id `cid`, a message on a topic whose fifth segment is `r`
and whose kind is `run-start` resolves through the flipped map to exactly
`cid` and emits `CHECK_INPROGRESS` for the check found under that id; no
other check id maps to `r`, and any check found under `cid` indeed has id
`cid`. -/
theorem flipped_lookup_correlates (ctx : Ctx) (st : RState) (M : StrMap)
    (topic : String) (m : Msg) (cid r : String)
    (hv : (M.map Prod.snd).Nodup)
    (hmap : st.runIdMap = objectFlip M)
    (hlu : jsLookup M cid = some r)
    (h4 : (jsSplit topic '/')[4]? = some r)
    (h5 : (jsSplit topic '/')[5]? = some "run-start")
    (harmed : mapHas st.timeouts (some r) = true) :
    handleMessage ctx st topic (.parsed m) =
      ⟨st, [.emit (.checkInProgress (findCheck st.checks (some cid)))], false⟩ ∧
    lookupRunId st.runIdMap (some r) = some cid ∧
    (∀ cid', jsLookup M cid' = some r → cid' = cid) ∧
    (∀ chk, findCheck st.checks (some cid) = some chk → chk.id = cid) := by
  have hres : lookupRunId st.runIdMap (some r) = some cid := by
    rw [hmap]
    simp only [lookupRunId, jsObjGet]
    rw [objectFlip_eq_swap M hv]
    exact jsLookup_swap M hv cid r (jsLookup_mem M cid r hlu)
  refine ⟨?_, hres, ?_, ?_⟩
  · simp only [handleMessage, h4, h5, harmed]
    rw [hres]
    simp
  · intro cid' hlu'
    have h1 : (cid, r) ∈ M := jsLookup_mem M cid r hlu
    have h2 : (cid', r) ∈ M := jsLookup_mem M cid' r hlu'
    have := List.inj_on_of_nodup_map hv h2 h1 rfl
    exact congrArg Prod.fst this
  · intro chk hchk
    have := List.find?_some hchk
    simpa using this

/-- C4 witness: with the backend mapping A to r1 and B to r2, a message on
a topic with fifth segment r2 and kind `run-start` resolves to check B and
emits `CHECK_INPROGRESS` for B, never for A. -/
theorem flipped_lookup_correlates_witness :
    handleMessage ctxW rstW "account/acc/ad-hoc-check-results/s/r2/run-start" (.parsed {}) =
      ⟨rstW, [.emit (.checkInProgress (some ⟨"B"⟩))], false⟩ ∧
    lookupRunId rstW.runIdMap (some "r2") = some "B" ∧
    (∀ cid', jsLookup [("A", "r1"), ("B", "r2")] cid' = some "r2" → cid' = "B") := by
  obtain ⟨h1, h2, h3, _⟩ := flipped_lookup_correlates ctxW rstW [("A", "r1"), ("B", "r2")]
    "account/acc/ad-hoc-check-results/s/r2/run-start" {} "B" "r2"
    (by decide) (by decide) (by decide) (by decide) (by decide) (by decide)
  refine ⟨?_, h2, h3⟩
  rw [h1]
  decide

/-- C7 counterexample: the claim says the asset fetch is invoked whenever
the path is present and the result has failures, but the source guard is
JS truthiness, so for a present but empty `logPath` with
`hasFailures = true` and verbosity disabled no fetch happens even though
the `run-end` message is fully processed (it emits its one
`CHECK_FINISHED`). -/
theorem present_empty_path_not_fetched :
    (CheckResult.mk true ⟨"eu", some "", none⟩ none none).assets.logPath.isSome = true ∧
    (CheckResult.mk true ⟨"eu", some "", none⟩ none none).hasFailures = true ∧
    rstW.verbose = false ∧
    invokesLogFetch (handleMessage ctxW rstW
      "account/acc/ad-hoc-check-results/s/r1/run-end"
      (.parsed ⟨some (CheckResult.mk true ⟨"eu", some "", none⟩ none none)⟩)) = false ∧
    effFinCount (handleMessage ctxW rstW
      "account/acc/ad-hoc-check-results/s/r1/run-end"
      (.parsed ⟨some (CheckResult.mk true ⟨"eu", some "", none⟩ none none)⟩)).effects = 1 := by
  decide

/-- C7 amended: on a `run-end` message for an armed run id carrying a
result, the handler disarms the timer, calls the asset-fetch collaborator
for the log path (respectively the check-run-data path) if and only if
that path is present and non-empty (JS truthiness) and verbosity is
enabled or the result has failures, and emits `CHECK_SUCCESSFUL` carrying
the result with the fetched assets attached followed by `CHECK_FINISHED`,
with every fetch call placed before every emission, and regardless of
whether `hasFailures` is true. -/
theorem run_end_fetches_and_emits (ctx : Ctx) (st : RState) (topic : String)
    (m : Msg) (result : CheckResult)
    (harmed : mapHas st.timeouts ((jsSplit topic '/')[4]?) = true)
    (h5 : (jsSplit topic '/')[5]? = some "run-end")
    (hres : m.result = some result) :
    handleMessage ctx st topic (.parsed m) =
      ⟨disableTimeout st ((jsSplit topic '/')[4]?),
        fetchEffects st result ++
          [.emit (.checkSuccessful
            (findCheck st.checks (lookupRunId st.runIdMap ((jsSplit topic '/')[4]?)))
            (attachAssets ctx st result)),
           .emit (.checkFinished
            (findCheck st.checks (lookupRunId st.runIdMap ((jsSplit topic '/')[4]?))))],
        false⟩ ∧
    invokesLogFetch (handleMessage ctx st topic (.parsed m)) =
      (truthy result.assets.logPath && (st.verbose || result.hasFailures)) ∧
    invokesDataFetch (handleMessage ctx st topic (.parsed m)) =
      (truthy result.assets.checkRunDataPath && (st.verbose || result.hasFailures)) ∧
    (∀ e ∈ fetchEffects st result, ∀ ev, e ≠ Effect.emit ev) := by
  have heq : handleMessage ctx st topic (.parsed m) =
      ⟨disableTimeout st ((jsSplit topic '/')[4]?),
        fetchEffects st result ++
          [.emit (.checkSuccessful
            (findCheck st.checks (lookupRunId st.runIdMap ((jsSplit topic '/')[4]?)))
            (attachAssets ctx st result)),
           .emit (.checkFinished
            (findCheck st.checks (lookupRunId st.runIdMap ((jsSplit topic '/')[4]?))))],
        false⟩ := by
    simp only [handleMessage, h5, harmed]
    simp only [runEndBranch, hres]
    simp
  refine ⟨heq, ?_, ?_, ?_⟩
  · rw [heq]
    simp only [invokesLogFetch, fetchEffects, logsCondOf, dataCondOf]
    by_cases hl : (truthy result.assets.logPath && (st.verbose || result.hasFailures)) = true <;>
      by_cases hd : (truthy result.assets.checkRunDataPath && (st.verbose || result.hasFailures)) = true <;>
      simp [hl, hd, List.any_append]
  · rw [heq]
    simp only [invokesDataFetch, fetchEffects, logsCondOf, dataCondOf]
    by_cases hl : (truthy result.assets.logPath && (st.verbose || result.hasFailures)) = true <;>
      by_cases hd : (truthy result.assets.checkRunDataPath && (st.verbose || result.hasFailures)) = true <;>
      simp [hl, hd, List.any_append]
  · intro e he ev
    simp only [fetchEffects, List.mem_append] at he
    rcases he with he | he <;> split at he <;> simp_all

/-- C7 witness: a `run-end` with a non-empty log path, `hasFailures = true`
and verbosity disabled fetches the logs, attaches them to the emitted
result, and emits `CHECK_SUCCESSFUL` then `CHECK_FINISHED` for check A. -/
theorem run_end_fetches_and_emits_witness :
    handleMessage ctxW rstW "account/acc/ad-hoc-check-results/s/r1/run-end"
      (.parsed ⟨some (CheckResult.mk true ⟨"eu", some "p.log", none⟩ none none)⟩) =
      ⟨disableTimeout rstW (some "r1"),
        [Effect.fetchLogs "eu" "p.log",
         .emit (.checkSuccessful (some ⟨"A"⟩)
           (CheckResult.mk true ⟨"eu", some "p.log", none⟩ (some "LOGS") none)),
         .emit (.checkFinished (some ⟨"A"⟩))], false⟩ ∧
    invokesLogFetch (handleMessage ctxW rstW "account/acc/ad-hoc-check-results/s/r1/run-end"
      (.parsed ⟨some (CheckResult.mk true ⟨"eu", some "p.log", none⟩ none none)⟩)) = true := by
  obtain ⟨h1, h2, _, _⟩ := run_end_fetches_and_emits ctxW rstW
    "account/acc/ad-hoc-check-results/s/r1/run-end"
    ⟨some (CheckResult.mk true ⟨"eu", some "p.log", none⟩ none none)⟩
    (CheckResult.mk true ⟨"eu", some "p.log", none⟩ none none)
    (by decide) (by decide) rfl
  constructor
  · rw [h1]
    decide
  · rw [h2]
    decide

theorem effFinCount_append (xs ys : List Effect) :
    effFinCount (xs ++ ys) = effFinCount xs + effFinCount ys := by
  simp [effFinCount, List.countP_append]

theorem actFinCount_append (xs ys : List Action) :
    actFinCount (xs ++ ys) = actFinCount xs + actFinCount ys := by
  simp [actFinCount, List.countP_append]

theorem actFinCount_map_effect (effs : List Effect) :
    actFinCount (effs.map Action.effect) = effFinCount effs := by
  induction effs with
  | nil => rfl
  | cons e effs ih =>
    simp only [List.map_cons, actFinCount, effFinCount, List.countP_cons] at ih ⊢
    rw [ih]
    congr 1
    cases e with
    | emit ev => cases ev <;> rfl
    | fetchLogs r p => rfl
    | fetchCheckRunData r p => rfl

theorem mem_map_effect_iff (effs : List Effect) (e : Effect) :
    Action.effect e ∈ effs.map Action.effect ↔ e ∈ effs := by
  constructor
  · intro h
    rcases List.mem_map.1 h with ⟨e', he', heq⟩
    have : e' = e := by simpa using heq
    subst this
    exact he'
  · intro h
    exact List.mem_map_of_mem _ h

theorem fetchEffects_effFinCount (st : RState) (result : CheckResult) :
    effFinCount (fetchEffects st result) = 0 := by
  unfold fetchEffects
  by_cases hl : logsCondOf st result = true <;>
    by_cases hd : dataCondOf st result = true <;>
    simp [hl, hd, effFinCount]

theorem fetchEffects_no_emit (st : RState) (result : CheckResult) (ev : Event) :
    Effect.emit ev ∉ fetchEffects st result := by
  unfold fetchEffects
  by_cases hl : logsCondOf st result = true <;>
    by_cases hd : dataCondOf st result = true <;>
    simp [hl, hd]

/-- Every delivery emits at most one `CHECK_FINISHED`, never emits
`RUN_FINISHED`, and a delivery on which the handler raises performed no
effect at all. -/
theorem deliveryStep_shape (ctx : Ctx) (st : RState) (d : Delivery) :
    effFinCount (deliveryStep ctx st d).effects ≤ 1 ∧
    Effect.emit Event.runFinished ∉ (deliveryStep ctx st d).effects ∧
    ((deliveryStep ctx st d).threw = true → (deliveryStep ctx st d).effects = []) := by
  cases d with
  | timer tid =>
    rcases hfind : st.pending.find? (fun t => t.tid == tid) with _ | t
    · simp [deliveryStep, fireTimer, hfind, effFinCount]
    · simp [deliveryStep, fireTimer, hfind, effFinCount]
  | message topic raw =>
    cases raw with
    | invalid =>
      refine ⟨?_, ?_, fun _ => rfl⟩ <;> simp [deliveryStep, handleMessage, effFinCount]
    | parsed m =>
      simp only [deliveryStep]
      by_cases h1 : mapHas st.timeouts ((jsSplit topic '/')[4]?) = true
      · by_cases h2 : ((jsSplit topic '/')[5]? == some "run-start") = true
        · simp [handleMessage, h1, h2, effFinCount]
        · by_cases h3 : ((jsSplit topic '/')[5]? == some "run-end") = true
          · rcases hr : m.result with _ | result
            · refine ⟨?_, ?_, fun _ => ?_⟩ <;>
                simp [handleMessage, h1, h2, h3, runEndBranch, hr, effFinCount]
            · have heff : (handleMessage ctx st topic (.parsed m)).effects =
                  fetchEffects st result ++
                    [.emit (.checkSuccessful
                      (findCheck st.checks (lookupRunId st.runIdMap ((jsSplit topic '/')[4]?)))
                      (attachAssets ctx st result)),
                     .emit (.checkFinished
                      (findCheck st.checks (lookupRunId st.runIdMap ((jsSplit topic '/')[4]?))))] := by
                simp [handleMessage, h1, h2, h3, runEndBranch, hr]
              have hthrew : (handleMessage ctx st topic (.parsed m)).threw = false := by
                simp [handleMessage, h1, h2, h3, runEndBranch, hr]
              refine ⟨?_, ?_, ?_⟩
              · rw [heff, effFinCount_append, fetchEffects_effFinCount]
                simp [effFinCount]
              · rw [heff]
                intro hmem
                rcases List.mem_append.1 hmem with hmem | hmem
                · exact fetchEffects_no_emit st result _ hmem
                · simp at hmem
              · intro hc
                rw [hthrew] at hc
                cases hc
          · by_cases h4 : ((jsSplit topic '/')[5]? == some "error") = true
            · simp [handleMessage, h1, h2, h3, h4, effFinCount]
            · simp [handleMessage, h1, h2, h3, h4, effFinCount]
      · simp [handleMessage, h1, effFinCount]

/-- After a successful trigger with a positive number of checks, the event
processing loop either never emits `RUN_FINISHED` and has seen strictly
fewer `CHECK_FINISHED` events than checks, or it ends exactly with
`RUN_FINISHED` followed by the disconnect, with the preceding trace
containing exactly as many `CHECK_FINISHED` events as checks and no
`RUN_FINISHED`. -/
theorem runLoop_spec (ctx : Ctx) :
    ∀ (ds : List Delivery) (st : RState) (need : Nat), 0 < need →
      (Action.effect (.emit .runFinished) ∉ runLoop ctx st need ds ∧
        actFinCount (runLoop ctx st need ds) < need) ∨
      (∃ pre, runLoop ctx st need ds = pre ++ [.effect (.emit .runFinished), .disconnect] ∧
        actFinCount pre = need ∧ Action.effect (.emit .runFinished) ∉ pre) := by
  intro ds
  induction ds with
  | nil =>
    intro st need hpos
    exact Or.inl ⟨by simp [runLoop], by simpa [runLoop, actFinCount] using hpos⟩
  | cons d ds ih =>
    intro st need hpos
    obtain ⟨hle, hnomem, hthrew⟩ := deliveryStep_shape ctx st d
    simp only [runLoop]
    by_cases ht : (deliveryStep ctx st d).threw = true
    · rw [if_pos ht]
      left
      rw [hthrew ht]
      exact ⟨by simp, by simpa [actFinCount] using hpos⟩
    · rw [if_neg ht]
      by_cases hc : need ≤ effFinCount (deliveryStep ctx st d).effects
      · rw [if_pos hc]
        right
        refine ⟨(deliveryStep ctx st d).effects.map Action.effect, rfl, ?_, ?_⟩
        · rw [actFinCount_map_effect]
          omega
        · intro hmem
          exact hnomem ((mem_map_effect_iff _ _).1 hmem)
      · rw [if_neg hc]
        rcases ih (deliveryStep ctx st d).state
            (need - effFinCount (deliveryStep ctx st d).effects) (by omega) with
          ⟨hm, hcount⟩ | ⟨pre, heq, hcount, hpre⟩
        · left
          constructor
          · intro hmem
            rcases List.mem_append.1 hmem with hmem | hmem
            · exact hnomem ((mem_map_effect_iff _ _).1 hmem)
            · exact hm hmem
          · rw [actFinCount_append, actFinCount_map_effect]
            omega
        · right
          refine ⟨(deliveryStep ctx st d).effects.map Action.effect ++ pre, ?_, ?_, ?_⟩
          · rw [heq, List.append_assoc]
          · rw [actFinCount_append, actFinCount_map_effect, hcount]
            omega
          · intro hmem
            rcases List.mem_append.1 hmem with hmem | hmem
            · exact hnomem ((mem_map_effect_iff _ _).1 hmem)
            · exact hpre hmem

/-- C2: for every session, if `RUN_FINISHED` appears in the trace of
`run()` then the trace decomposes as a prefix containing exactly as many
`CHECK_FINISHED` events as the trigger response returned checks and no
`RUN_FINISHED`, followed immediately by the single `RUN_FINISHED` and the
disconnect; and if the trigger response returned zero checks the
completion signal resolves immediately: the whole trace is fixed and
contains `RUN_FINISHED` without any delivery having been processed. -/
theorem run_finished_after_all_checks (ctx : Ctx) (accountId suiteId : String)
    (verbose : Bool) (timeoutSec : Nat) (resp : TriggerResponse) (ds : List Delivery) :
    (Action.effect (.emit .runFinished) ∈
        runModel ctx accountId suiteId verbose timeoutSec (.ok resp) ds →
      ∃ pre, runModel ctx accountId suiteId verbose timeoutSec (.ok resp) ds =
          pre ++ [.effect (.emit .runFinished), .disconnect] ∧
        actFinCount pre = resp.checks.length ∧
        Action.effect (.emit .runFinished) ∉ pre) ∧
    (resp.checks.length = 0 →
      runModel ctx accountId suiteId verbose timeoutSec (.ok resp) ds =
        [.connect, .attachHandler,
         .subscribeAck (subscriptionTopic accountId suiteId), .triggerRequest,
         .effect (.emit (.runStarted resp.checks)),
         .effect (.emit .runFinished), .disconnect]) := by
  constructor
  · intro hmem
    by_cases hN : resp.checks.length = 0
    · refine ⟨[.connect, .attachHandler,
        .subscribeAck (subscriptionTopic accountId suiteId), .triggerRequest,
        .effect (.emit (.runStarted resp.checks))], ?_, ?_, ?_⟩
      · simp [runModel, hN]
      · simp [actFinCount, hN]
      · simp
    · have hpos : 0 < resp.checks.length := Nat.pos_of_ne_zero hN
      have hform : runModel ctx accountId suiteId verbose timeoutSec (.ok resp) ds =
          [.connect, .attachHandler,
           .subscribeAck (subscriptionTopic accountId suiteId), .triggerRequest,
           .effect (.emit (.runStarted resp.checks))] ++
          runLoop ctx (postTriggerState verbose timeoutSec resp) resp.checks.length ds := by
        simp [runModel, hN]
      rcases runLoop_spec ctx ds (postTriggerState verbose timeoutSec resp)
          resp.checks.length hpos with ⟨hm, _⟩ | ⟨pre, heq, hcount, hpre⟩
      · exfalso
        rw [hform] at hmem
        rcases List.mem_append.1 hmem with hmem | hmem
        · simp at hmem
        · exact hm hmem
      · refine ⟨[.connect, .attachHandler,
          .subscribeAck (subscriptionTopic accountId suiteId), .triggerRequest,
          .effect (.emit (.runStarted resp.checks))] ++ pre, ?_, ?_, ?_⟩
        · rw [hform, heq, List.append_assoc]
        · rw [actFinCount_append, hcount]
          simp [actFinCount]
        · intro hmem'
          rcases List.mem_append.1 hmem' with hmem' | hmem'
          · simp at hmem'
          · exact hpre hmem'
  · intro hN
    simp [runModel, hN]

/-- C2 witness: for a concrete one-check session whose only delivery is the
firing of that check's timer, the trace ends with `RUN_FINISHED` and the
disconnect, preceded by exactly one `CHECK_FINISHED` and no
`RUN_FINISHED`. -/
theorem run_finished_after_all_checks_witness :
    ∃ pre, runModel ctxW "acc" "s" false 240 (.ok respW1) [Delivery.timer 0] =
        pre ++ [.effect (.emit .runFinished), .disconnect] ∧
      actFinCount pre = respW1.checks.length ∧
      Action.effect (.emit .runFinished) ∉ pre :=
  (run_finished_after_all_checks ctxW "acc" "s" false 240 respW1 [Delivery.timer 0]).1
    (by decide)

theorem finishedForCount_append (xs ys : List Effect) (c : Check) :
    finishedForCount (xs ++ ys) c = finishedForCount xs c + finishedForCount ys c := by
  simp [finishedForCount, List.countP_append]

theorem fetchEffects_finishedForCount (st : RState) (result : CheckResult) (c : Check) :
    finishedForCount (fetchEffects st result) c = 0 := by
  unfold fetchEffects finishedForCount
  by_cases hl : logsCondOf st result = true <;>
    by_cases hd : dataCondOf st result = true <;>
    simp [hl, hd]

/-- Removing from a list the unique element carrying a given key decreases
any `countP` by exactly that element's contribution. -/
theorem countP_filter_key {α β : Type} [BEq β] [LawfulBEq β] (f : α → β) (p : α → Bool) :
    ∀ (l : List α) (a0 : α), (l.map f).Nodup → a0 ∈ l →
      (l.filter (fun u => !(f u == f a0))).countP p + (if p a0 then 1 else 0) =
        l.countP p := by
  intro l
  induction l with
  | nil => intro a0 _ h; simp at h
  | cons a l ih =>
    intro a0 hnd hmem
    have hnda : f a ∉ l.map f := by
      simp only [List.map_cons, List.nodup_cons] at hnd
      exact hnd.1
    have hndl : (l.map f).Nodup := by
      simp only [List.map_cons, List.nodup_cons] at hnd
      exact hnd.2
    rcases List.mem_cons.1 hmem with rfl | hmem
    · have hfilter : l.filter (fun u => !(f u == f a0)) = l := by
        rw [List.filter_eq_self]
        intro u hu
        have hne : f u ≠ f a0 := by
          intro heq
          exact hnda (heq ▸ List.mem_map_of_mem f hu)
        simp [hne]
      rw [List.filter_cons, List.countP_cons]
      simp only [beq_self_eq_true, Bool.not_true]
      rw [hfilter]
      simp
    · have hne : (f a == f a0) = false := by
        have : f a ≠ f a0 := by
          intro heq
          exact hnda (heq ▸ List.mem_map_of_mem f hmem)
        simpa using this
      rw [List.filter_cons]
      rw [hne]
      simp only [Bool.not_false, if_true]
      rw [List.countP_cons, List.countP_cons]
      have := ih a0 hndl hmem
      omega

/-- On a state satisfying the invariant, a run id present in the `timeouts`
table is the run id of some pending timer whose handle the table stores. -/
theorem armedEntry (st : RState) (r : Option String) (hinv : RunnerInv st)
    (hhas : mapHas st.timeouts r = true) :
    ∃ t0, t0 ∈ st.pending ∧ t0.runId = r ∧ mapGet st.timeouts r = some t0.tid := by
  rcases hf : st.timeouts.find? (fun p => p.1 == r) with _ | e0
  · exfalso
    rw [mapHas, List.any_eq_true] at hhas
    rcases hhas with ⟨p, hp, hpr⟩
    exact (List.find?_eq_none.1 hf p hp) hpr
  · have he0 := List.find?_some hf
    have hmem : e0 ∈ st.timeouts := List.mem_of_find?_eq_some hf
    have he0r : e0.1 = r := by simpa using he0
    obtain ⟨t0, ht0, htid, hrun⟩ := hinv.link1 e0 hmem
    refine ⟨t0, ht0, by rw [hrun, he0r], ?_⟩
    rw [mapGet, hf]
    simp [htid]

theorem disableTimeout_eq (st : RState) (r : Option String) (tid : TimerId)
    (hget : mapGet st.timeouts r = some tid) :
    disableTimeout st r =
      { st with
        pending := st.pending.filter (fun u => !(u.tid == tid)),
        timeouts := st.timeouts.filter (fun e => !(e.1 == r)) } := by
  simp [disableTimeout, hget, mapDelete]

/-- Removing a pending timer together with its key from the table preserves
the correlation invariant. -/
theorem removeEntry_inv (st : RState) (t0 : PendingTimer) (hinv : RunnerInv st)
    (ht0 : t0 ∈ st.pending) :
    RunnerInv { st with
      pending := st.pending.filter (fun u => !(u.tid == t0.tid)),
      timeouts := st.timeouts.filter (fun e => !(e.1 == t0.runId)) } := by
  constructor
  · exact List.Nodup.sublist ((List.filter_sublist st.pending).map _) hinv.tids_nodup
  · exact List.Nodup.sublist ((List.filter_sublist st.timeouts).map _) hinv.keys_nodup
  · intro e he
    rw [List.mem_filter] at he
    obtain ⟨hemem, hene⟩ := he
    obtain ⟨t, ht, htid, hrun⟩ := hinv.link1 e hemem
    have hrne : t.runId ≠ t0.runId := by
      intro heq
      rw [hrun] at heq
      simp [heq.symm] at hene
    have htne : t ≠ t0 := fun heq => hrne (by rw [heq])
    refine ⟨t, ?_, htid, hrun⟩
    rw [List.mem_filter]
    refine ⟨ht, ?_⟩
    have : t.tid ≠ t0.tid :=
      fun heq => htne (List.inj_on_of_nodup_map hinv.tids_nodup ht ht0 heq)
    simp [this]
  · intro t ht
    rw [List.mem_filter] at ht
    obtain ⟨htm, htne⟩ := ht
    have hne_tid : t.tid ≠ t0.tid := by
      intro heq
      simp [heq] at htne
    have h2 := hinv.link2 t htm
    rw [List.mem_filter]
    refine ⟨h2, ?_⟩
    have hr : t.runId ≠ t0.runId := by
      intro heq
      have h2' := hinv.link2 t0 ht0
      have heq2 : ((t.runId, t.tid) : Option String × TimerId) = (t0.runId, t0.tid) :=
        List.inj_on_of_nodup_map hinv.keys_nodup h2 h2' heq
      exact hne_tid (congrArg Prod.snd heq2)
    simp [hr]
  · intro t ht
    rw [List.mem_filter] at ht
    exact hinv.resolve t ht.1
  · exact List.Nodup.sublist ((List.filter_sublist st.pending).map _) hinv.checks_nodup

/-- One delivery preserves the invariant, and its `CHECK_FINISHED`
emissions for a check plus the surviving pending timers for that check
never exceed the pending timers the check had before. -/
theorem step_preserves (ctx : Ctx) (st : RState) (d : Delivery) (hinv : RunnerInv st) :
    RunnerInv (deliveryStep ctx st d).state ∧
    ∀ c : Check,
      finishedForCount (deliveryStep ctx st d).effects c +
        (deliveryStep ctx st d).state.pending.countP (fun t => t.check == c) ≤
      st.pending.countP (fun t => t.check == c) := by
  cases d with
  | timer tid =>
    rcases hfind : st.pending.find? (fun t => t.tid == tid) with _ | t0
    · have hstep : deliveryStep ctx st (.timer tid) = ⟨st, [], false⟩ := by
        simp [deliveryStep, fireTimer, hfind]
      rw [hstep]
      exact ⟨hinv, fun c => by simp [finishedForCount]⟩
    · have htid : t0.tid = tid := by
        have := List.find?_some hfind
        simpa using this
      have ht0 : t0 ∈ st.pending := List.mem_of_find?_eq_some hfind
      subst htid
      have hstep : deliveryStep ctx st (.timer t0.tid) =
          ⟨{ st with
              pending := st.pending.filter (fun u => !(u.tid == t0.tid)),
              timeouts := st.timeouts.filter (fun e => !(e.1 == t0.runId)) },
            [.emit (.checkFailed (some t0.check) (.text "Reached timeout")),
             .emit (.checkFinished (some t0.check))], false⟩ := by
        simp [deliveryStep, fireTimer, hfind, mapDelete]
      rw [hstep]
      refine ⟨removeEntry_inv st t0 hinv ht0, fun c => ?_⟩
      have hkey := countP_filter_key (fun t : PendingTimer => t.tid)
        (fun t => t.check == c) st.pending t0 hinv.tids_nodup ht0
      have hfin : finishedForCount
          [.emit (.checkFailed (some t0.check) (.text "Reached timeout")),
           .emit (.checkFinished (some t0.check))] c =
          (if (t0.check == c) = true then 1 else 0) := by
        simp [finishedForCount, List.countP_cons]
      rw [hfin]
      simp only at hkey ⊢
      omega
  | message topic raw =>
    cases raw with
    | invalid =>
      have hstep : deliveryStep ctx st (.message topic .invalid) = ⟨st, [], true⟩ := rfl
      rw [hstep]
      exact ⟨hinv, fun c => by simp [finishedForCount]⟩
    | parsed m =>
      simp only [deliveryStep]
      by_cases h1 : mapHas st.timeouts ((jsSplit topic '/')[4]?) = true
      · obtain ⟨t0, ht0, hrun, hget⟩ := armedEntry st ((jsSplit topic '/')[4]?) hinv h1
        have hres : findCheck st.checks
            (lookupRunId st.runIdMap ((jsSplit topic '/')[4]?)) = some t0.check := by
          rw [← hrun]
          exact hinv.resolve t0 ht0
        have hdis : disableTimeout st ((jsSplit topic '/')[4]?) =
            { st with
              pending := st.pending.filter (fun u => !(u.tid == t0.tid)),
              timeouts := st.timeouts.filter (fun e => !(e.1 == t0.runId)) } := by
          rw [disableTimeout_eq st _ t0.tid hget, hrun]
        have hkey := fun c => countP_filter_key (fun t : PendingTimer => t.tid)
          (fun t => t.check == c) st.pending t0 hinv.tids_nodup ht0
        by_cases h2 : ((jsSplit topic '/')[5]? == some "run-start") = true
        · have hstep : handleMessage ctx st topic (.parsed m) =
              ⟨st, [.emit (.checkInProgress (some t0.check))], false⟩ := by
            simp [handleMessage, h1, h2, hres]
          rw [hstep]
          exact ⟨hinv, fun c => by simp [finishedForCount]⟩
        · by_cases h3 : ((jsSplit topic '/')[5]? == some "run-end") = true
          · rcases hr : m.result with _ | result
            · have hstep : handleMessage ctx st topic (.parsed m) =
                  ⟨disableTimeout st ((jsSplit topic '/')[4]?), [], true⟩ := by
                simp [handleMessage, h1, h2, h3, runEndBranch, hr]
              rw [hstep, hdis]
              refine ⟨removeEntry_inv st t0 hinv ht0, fun c => ?_⟩
              have hk := hkey c
              simp only [finishedForCount, List.countP_nil, Nat.zero_add]
              omega
            · have hstep : handleMessage ctx st topic (.parsed m) =
                  ⟨disableTimeout st ((jsSplit topic '/')[4]?),
                    fetchEffects st result ++
                      [.emit (.checkSuccessful (some t0.check) (attachAssets ctx st result)),
                       .emit (.checkFinished (some t0.check))], false⟩ := by
                simp [handleMessage, h1, h2, h3, runEndBranch, hr, hres]
              rw [hstep, hdis]
              refine ⟨removeEntry_inv st t0 hinv ht0, fun c => ?_⟩
              have hk := hkey c
              rw [finishedForCount_append, fetchEffects_finishedForCount]
              have hfin : finishedForCount
                  [.emit (.checkSuccessful (some t0.check) (attachAssets ctx st result)),
                   .emit (.checkFinished (some t0.check))] c =
                  (if (t0.check == c) = true then 1 else 0) := by
                simp [finishedForCount, List.countP_cons]
              rw [hfin]
              simp only at hk ⊢
              omega
          · by_cases h4 : ((jsSplit topic '/')[5]? == some "error") = true
            · have hstep : handleMessage ctx st topic (.parsed m) =
                  ⟨disableTimeout st ((jsSplit topic '/')[4]?),
                    [.emit (.checkFailed (some t0.check) (.payload m)),
                     .emit (.checkFinished (some t0.check))], false⟩ := by
                simp [handleMessage, h1, h2, h3, h4, hres]
              rw [hstep, hdis]
              refine ⟨removeEntry_inv st t0 hinv ht0, fun c => ?_⟩
              have hk := hkey c
              have hfin : finishedForCount
                  [.emit (.checkFailed (some t0.check) (.payload m)),
                   .emit (.checkFinished (some t0.check))] c =
                  (if (t0.check == c) = true then 1 else 0) := by
                simp [finishedForCount, List.countP_cons]
              rw [hfin]
              simp only at hk ⊢
              omega
            · have hstep : handleMessage ctx st topic (.parsed m) = ⟨st, [], false⟩ := by
                simp [handleMessage, h1, h2, h3, h4]
              rw [hstep]
              exact ⟨hinv, fun c => by simp [finishedForCount]⟩
      · have hstep : handleMessage ctx st topic (.parsed m) = ⟨st, [], false⟩ := by
          simp [handleMessage, h1]
        rw [hstep]
        exact ⟨hinv, fun c => by simp [finishedForCount]⟩

theorem processAll_count (ctx : Ctx) (c : Check) :
    ∀ (ds : List Delivery) (st : RState), RunnerInv st →
      finishedForCount (allEffects (processAll ctx st ds)) c ≤
        st.pending.countP (fun t => t.check == c) := by
  intro ds
  induction ds with
  | nil =>
    intro st _
    simp [processAll, allEffects, finishedForCount]
  | cons d ds ih =>
    intro st hinv
    obtain ⟨hinv', hcount⟩ := step_preserves ctx st d hinv
    simp only [processAll]
    by_cases ht : (deliveryStep ctx st d).threw = true
    · rw [if_pos ht]
      have : allEffects [(d, (deliveryStep ctx st d).effects)] =
          (deliveryStep ctx st d).effects := by
        simp [allEffects]
      rw [this]
      have := hcount c
      omega
    · rw [if_neg ht]
      have hall : allEffects ((d, (deliveryStep ctx st d).effects) ::
          processAll ctx (deliveryStep ctx st d).state ds) =
          (deliveryStep ctx st d).effects ++
            allEffects (processAll ctx (deliveryStep ctx st d).state ds) := by
        simp [allEffects]
      rw [hall, finishedForCount_append]
      have h1 := ih (deliveryStep ctx st d).state hinv'
      have h2 := hcount c
      omega

theorem countP_check_le_one :
    ∀ (l : List PendingTimer), (l.map (fun t => t.check)).Nodup →
      ∀ c : Check, l.countP (fun t => t.check == c) ≤ 1 := by
  intro l
  induction l with
  | nil => intro _ c; simp
  | cons a l ih =>
    intro hnd c
    simp only [List.map_cons, List.nodup_cons] at hnd
    rw [List.countP_cons]
    by_cases ha : (a.check == c) = true
    · have hc : a.check = c := by simpa using ha
      have hzero : l.countP (fun t => t.check == c) = 0 := by
        rw [List.countP_eq_zero]
        intro t htl
        intro ht
        have : t.check = c := by simpa using ht
        exact hnd.1 (by rw [← hc] at this; exact this ▸ List.mem_map_of_mem _ htl)
      rw [hzero]
      simp [ha]
    · have hle := ih hnd.2 c
      have hz : (if (a.check == c) = true then 1 else 0) = 0 := by simp [ha]
      rw [hz]
      omega

theorem armCheck_fields (M : StrMap) (st : RState) (c : Check) :
    (armCheck M st c).checks = st.checks ∧
    (armCheck M st c).runIdMap = st.runIdMap ∧
    (armCheck M st c).timeoutSec = st.timeoutSec := ⟨rfl, rfl, rfl⟩

theorem armCheck_inv (M : StrMap) (st : RState) (c : Check)
    (hinv : RunnerInv st)
    (hbound : ∀ t ∈ st.pending, t.tid < st.nextTimer)
    (hfresh : mapHas st.timeouts (jsObjGet M (some c.id)) = false)
    (hresolve : findCheck st.checks (lookupRunId st.runIdMap (jsObjGet M (some c.id))) = some c)
    (hnew : c ∉ st.pending.map (fun t => t.check)) :
    RunnerInv (armCheck M st c) ∧
    (∀ t ∈ (armCheck M st c).pending, t.tid < (armCheck M st c).nextTimer) ∧
    (armCheck M st c).timeouts = st.timeouts ++ [(jsObjGet M (some c.id), st.nextTimer)] := by
  have hset : mapSet st.timeouts (jsObjGet M (some c.id)) st.nextTimer =
      st.timeouts ++ [(jsObjGet M (some c.id), st.nextTimer)] := by
    rw [mapSet]
    rw [show st.timeouts.any (fun p => p.1 == jsObjGet M (some c.id)) = false from hfresh]
    simp
  have hkeyfresh : ∀ e ∈ st.timeouts, (e.1 == jsObjGet M (some c.id)) = false := by
    intro e he
    by_contra hcon
    have : st.timeouts.any (fun p => p.1 == jsObjGet M (some c.id)) = true :=
      List.any_eq_true.2 ⟨e, he, by revert hcon; cases (e.1 == jsObjGet M (some c.id)) <;> simp⟩
    rw [mapHas] at hfresh
    rw [this] at hfresh
    cases hfresh
  refine ⟨?_, ?_, ?_⟩
  · constructor
    · simp only [armCheck, List.map_append]
      rw [List.nodup_append]
      refine ⟨hinv.tids_nodup, by simp, ?_⟩
      intro x hx
      simp only [List.map_cons, List.map_nil, List.mem_singleton]
      intro heq
      rcases List.mem_map.1 hx with ⟨t, ht, rfl⟩
      have hlt := hbound t ht
      have heq2 : t.tid = st.nextTimer := heq
      exact absurd heq2 (Nat.ne_of_lt hlt)
    · simp only [armCheck, hset, List.map_append]
      rw [List.nodup_append]
      refine ⟨hinv.keys_nodup, by simp, ?_⟩
      intro x hx
      simp only [List.map_cons, List.map_nil, List.mem_singleton]
      intro heq
      rcases List.mem_map.1 hx with ⟨e, he, rfl⟩
      have := hkeyfresh e he
      rw [heq] at this
      simp at this
    · intro e he
      simp only [armCheck, hset, List.mem_append] at he
      rcases he with he | he
      · obtain ⟨t, ht, h1, h2⟩ := hinv.link1 e he
        exact ⟨t, by simp [armCheck, List.mem_append, ht], h1, h2⟩
      · rcases List.mem_singleton.1 he with rfl
        refine ⟨⟨st.nextTimer, st.timeoutSec * 1000, jsObjGet M (some c.id), c⟩, ?_, rfl, rfl⟩
        simp [armCheck]
    · intro t ht
      simp only [armCheck, List.mem_append] at ht
      rcases ht with ht | ht
      · have := hinv.link2 t ht
        simp [armCheck, hset, List.mem_append, this]
      · rcases List.mem_singleton.1 ht with rfl
        simp [armCheck, hset, List.mem_append]
    · intro t ht
      simp only [armCheck, List.mem_append] at ht
      rcases ht with ht | ht
      · exact hinv.resolve t ht
      · rcases List.mem_singleton.1 ht with rfl
        exact hresolve
    · simp only [armCheck, List.map_append]
      rw [List.nodup_append]
      refine ⟨hinv.checks_nodup, by simp, ?_⟩
      intro x hx
      simp only [List.map_cons, List.map_nil, List.mem_singleton]
      intro heq
      subst heq
      exact hnew hx
  · intro t ht
    simp only [armCheck, List.mem_append] at ht
    rcases ht with ht | ht
    · have hlt := hbound t ht
      show t.tid < st.nextTimer + 1
      exact Nat.lt_succ_of_lt hlt
    · rcases List.mem_singleton.1 ht with rfl
      show st.nextTimer < st.nextTimer + 1
      exact Nat.lt_succ_self _
  · simp [armCheck, hset]

theorem armTimers_inv (M : StrMap) :
    ∀ (cs : List Check) (st : RState),
      RunnerInv st →
      (∀ t ∈ st.pending, t.tid < st.nextTimer) →
      (∀ x ∈ cs, mapHas st.timeouts (jsObjGet M (some x.id)) = false) →
      ((cs.map (fun x => jsObjGet M (some x.id))).Nodup) →
      (∀ x ∈ cs, findCheck st.checks (lookupRunId st.runIdMap (jsObjGet M (some x.id))) = some x) →
      (∀ x ∈ cs, x ∉ st.pending.map (fun t => t.check)) →
      cs.Nodup →
      RunnerInv (armTimers st cs M) := by
  intro cs
  induction cs with
  | nil => intro st hinv _ _ _ _ _ _; exact hinv
  | cons c0 cs ih =>
    intro st hinv hbound hfresh hrids hresolve hnew hnd
    obtain ⟨hinv', hbound', htime'⟩ := armCheck_inv M st c0 hinv hbound
      (hfresh c0 (List.mem_cons_self _ _))
      (hresolve c0 (List.mem_cons_self _ _))
      (fun h => hnew c0 (List.mem_cons_self _ _) h)
    simp only [List.map_cons, List.nodup_cons] at hrids
    apply ih (armCheck M st c0) hinv' hbound'
    · intro x hx
      rw [htime', mapHas, List.any_append]
      have h1 : st.timeouts.any (fun p => p.1 == jsObjGet M (some x.id)) = false := by
        have := hfresh x (List.mem_cons_of_mem _ hx)
        rwa [mapHas] at this
      have h2 : (jsObjGet M (some c0.id) == jsObjGet M (some x.id)) = false := by
        have hne : jsObjGet M (some c0.id) ≠ jsObjGet M (some x.id) := by
          intro heq
          exact hrids.1 (heq ▸ List.mem_map_of_mem _ hx)
        simpa using hne
      rw [h1]
      simp [h2]
    · exact hrids.2
    · intro x hx
      rw [(armCheck_fields M st c0).1, (armCheck_fields M st c0).2.1]
      exact hresolve x (List.mem_cons_of_mem _ hx)
    · intro x hx
      simp only [armCheck, List.map_append, List.mem_append]
      rintro (h | h)
      · exact hnew x (List.mem_cons_of_mem _ hx) h
      · simp only [List.map_cons, List.map_nil, List.mem_singleton] at h
        subst h
        exact (List.nodup_cons.1 hnd).1 hx
    · exact (List.nodup_cons.1 hnd).2

theorem rids_nodup_aux (M : StrMap) (hv : (M.map Prod.snd).Nodup) :
    ∀ (cs : List Check), ((cs.map Check.id).Nodup) →
      (∀ x ∈ cs, (jsLookup M x.id).isSome = true) →
      (cs.map (fun x => jsObjGet M (some x.id))).Nodup := by
  intro cs
  induction cs with
  | nil => intro _ _; simp
  | cons c cs ih =>
    intro hnd htot
    simp only [List.map_cons, List.nodup_cons] at hnd ⊢
    refine ⟨?_, ih hnd.2 (fun x hx => htot x (List.mem_cons_of_mem _ hx))⟩
    intro hmem
    rcases List.mem_map.1 hmem with ⟨x, hx, heq⟩
    rcases Option.isSome_iff_exists.1 (htot c (List.mem_cons_self _ _)) with ⟨r, hr⟩
    have hxlu : jsLookup M x.id = some r := by
      have h1 : jsObjGet M (some x.id) = jsLookup M x.id := rfl
      have h2 : jsObjGet M (some c.id) = jsLookup M c.id := rfl
      rw [h1, h2, hr] at heq
      exact heq
    have hc : (c.id, r) ∈ M := jsLookup_mem M c.id r hr
    have hx2 : (x.id, r) ∈ M := jsLookup_mem M x.id r hxlu
    have heqp : ((x.id, r) : String × String) = (c.id, r) :=
      List.inj_on_of_nodup_map hv hx2 hc rfl
    have : x.id = c.id := congrArg Prod.fst heqp
    exact hnd.1 (this ▸ List.mem_map_of_mem _ hx)

theorem findCheck_self :
    ∀ (cs : List Check), ((cs.map Check.id).Nodup) → ∀ c ∈ cs,
      findCheck cs (some c.id) = some c := by
  intro cs
  induction cs with
  | nil => intro _ c hc; simp at hc
  | cons a cs ih =>
    intro hnd c hc
    simp only [List.map_cons, List.nodup_cons] at hnd
    by_cases ha : a.id = c.id
    · have hac : a = c := by
        rcases List.mem_cons.1 hc with rfl | hc
        · rfl
        · exfalso
          exact hnd.1 (ha ▸ List.mem_map_of_mem _ hc)
      subst hac
      rw [findCheck, List.find?_cons_of_pos]
      simp
    · have hcc : c ∈ cs := by
        rcases List.mem_cons.1 hc with rfl | hc
        · exact absurd rfl ha
        · exact hc
      rw [findCheck, List.find?_cons_of_neg]
      · exact ih hnd.2 c hcc
      · simp [ha]

/-- After a well-formed trigger response is processed, the armed state
satisfies the correlation invariant. -/
theorem postTriggerState_inv (v : Bool) (tSec : Nat) (resp : TriggerResponse)
    (hwf : WF resp) : RunnerInv (postTriggerState v tSec resp) := by
  obtain ⟨hids, _, hvals, htot⟩ := hwf
  apply armTimers_inv resp.checkRunIds resp.checks
  · constructor <;> first
      | exact List.nodup_nil
      | (intro e he; simp at he)
      | (intro t ht; simp at ht)
  · intro t ht
    simp at ht
  · intro x _
    rfl
  · exact rids_nodup_aux resp.checkRunIds hvals resp.checks hids htot
  · intro x hx
    rcases Option.isSome_iff_exists.1 (htot x hx) with ⟨r, hr⟩
    have h1 : jsObjGet resp.checkRunIds (some x.id) = some r := hr
    rw [h1]
    have h2 : lookupRunId (objectFlip resp.checkRunIds) (some r) = some x.id := by
      simp only [lookupRunId, jsObjGet]
      rw [objectFlip_eq_swap resp.checkRunIds hvals]
      exact jsLookup_swap resp.checkRunIds hvals x.id r (jsLookup_mem _ _ _ hr)
    show findCheck resp.checks (lookupRunId (objectFlip resp.checkRunIds) (some r)) = some x
    rw [h2]
    exact findCheck_self resp.checks hids x hx
  · intro x _ h
    simp at h
  · exact List.Nodup.of_map Check.id hids

/-- C3: under the well-formedness the spec assumes of a trigger response
(injective run id mapping, spec section 3), at most one terminal
`CHECK_FINISHED` is ever emitted per check over any processed delivery
sequence; any message whose run id is not present in the `timeouts` table
produces no effect at all; and the timer callback removes its run id from
the table before emitting, so a later message for that run id is
discarded. -/
theorem at_most_one_terminal_pair (ctx : Ctx) (v : Bool) (tSec : Nat)
    (resp : TriggerResponse) (ds : List Delivery) (hwf : WF resp) (c : Check) :
    finishedForCount (allEffects
        (processAll ctx (postTriggerState v tSec resp) ds)) c ≤ 1 ∧
    (∀ (st : RState) (topic : String) (raw : RawMsg),
      mapHas st.timeouts ((jsSplit topic '/')[4]?) = false →
      (handleMessage ctx st topic raw).effects = []) ∧
    (∀ (st : RState) (tid : TimerId) (t : PendingTimer),
      st.pending.find? (fun u => u.tid == tid) = some t →
      mapHas (fireTimer st tid).1.timeouts t.runId = false) := by
  refine ⟨?_, ?_, ?_⟩
  · have hinv := postTriggerState_inv v tSec resp hwf
    have h1 := processAll_count ctx c ds (postTriggerState v tSec resp) hinv
    have h2 := countP_check_le_one (postTriggerState v tSec resp).pending
      hinv.checks_nodup c
    omega
  · intro st topic raw hhas
    cases raw with
    | invalid => rfl
    | parsed m => simp [handleMessage, hhas]
  · intro st tid t hfind
    simp only [fireTimer, hfind]
    rw [mapHas, List.any_eq_false]
    intro p hp
    rw [mapDelete, List.mem_filter] at hp
    simpa using hp.2

/-- C3 witness: on a concrete well-formed two-check session, processing a
`run-end` for check A, a duplicate `run-end` for A and then the firing of
timer 0 (also A) emits at most one `CHECK_FINISHED` for A. -/
theorem at_most_one_terminal_pair_witness :
    finishedForCount (allEffects (processAll ctxW (postTriggerState false 240 respW2)
      [.message "account/acc/ad-hoc-check-results/s/r1/run-end"
        (.parsed ⟨some (CheckResult.mk false ⟨"eu", none, none⟩ none none)⟩),
       .message "account/acc/ad-hoc-check-results/s/r1/run-end"
        (.parsed ⟨some (CheckResult.mk false ⟨"eu", none, none⟩ none none)⟩),
       .timer 0])) ⟨"A"⟩ ≤ 1 :=
  (at_most_one_terminal_pair ctxW false 240 respW2
    [.message "account/acc/ad-hoc-check-results/s/r1/run-end"
      (.parsed ⟨some (CheckResult.mk false ⟨"eu", none, none⟩ none none)⟩),
     .message "account/acc/ad-hoc-check-results/s/r1/run-end"
      (.parsed ⟨some (CheckResult.mk false ⟨"eu", none, none⟩ none none)⟩),
     .timer 0] (by decide) ⟨"A"⟩).1

end CheckRunner
